import Mathlib

/-!
A verification development for the hybrid DAG-based multi-core scheduler
(`src/scheduler.c`).  The C program is shallowly embedded: C `int` fields
become `Int` (or `Nat` where the C value is a counter that starts at 0 and
only increments), the task array becomes a `List Task`, the adjacency
matrix a `List (List Nat)`, and the main simulation `while` loop becomes a
fuel-indexed recursion (`run_loop`) whose fuel (10002) strictly dominates
the loop's own safety cutoff (`simulation_time > 10000`), so the fuel is
never what stops a run.

Cycle detection (`detect_cycles`) only sets a diagnostic flag that no
scheduling code ever reads, so it is not modelled; the `has_cycles` field
keeps its initial value.  `printf`/`usleep` calls have no effect on the
scheduler state; the logging variants at the end of the definitions model
their output as a list of strings so that the debug flag and the pacing
delay appear explicitly as inputs.
-/

namespace HybridDag

/-- Mirror of the C `Task` struct (`src/scheduler.c`, lines 13-26). -/
structure Task where
  id : Int
  name : String
  duration : Int
  period : Int
  priority : Int
  dependencies : List Nat
  completed : Bool
  remaining_time : Int
  core_assigned : Int
  start_time : Int
  finish_time : Int
deriving Repr, DecidableEq, Inhabited

/-- Mirror of the C `DAG` struct: tasks plus adjacency matrix plus cycle flag. -/
structure DAG where
  tasks : List Task
  adjacency_matrix : List (List Nat)
  has_cycles : Bool
deriving Repr, DecidableEq, Inhabited

/-- Mirror of the C `Core` struct.  `current_task` stores the index of the
bound task (the C code stores a pointer into the task array). -/
structure Core where
  core_id : Nat
  current_task : Option Nat
  time_slice_remaining : Int
  is_idle : Bool
  total_idle_time : Nat
deriving Repr, DecidableEq, Inhabited

/-- The mutable globals of one simulation run (`cores`, `simulation_time`,
`completed_tasks`) together with the DAG being scheduled. -/
structure SimState where
  dag : DAG
  cores : List Core
  simulation_time : Nat
  completed_tasks : Nat
deriving Repr, DecidableEq, Inhabited

/-- The per-task body of `apply_rate_monotonic_scheduling`
(`src/scheduler.c`, lines 86-99): period 0 gets priority 1, otherwise
`10 - period*9/1000` clamped into `[1, 10]`. -/
def rms_priority (period : Int) : Int :=
  if period = 0 then 1
  else
    let p := 10 - period * 9 / 1000
    let p1 := if p < 1 then 1 else p
    if p1 > 10 then 10 else p1

/-- `apply_rate_monotonic_scheduling` (`src/scheduler.c`, lines 83-107):
assigns `rms_priority` of each task's period. -/
def apply_rate_monotonic_scheduling (dag : DAG) : DAG :=
  { dag with tasks := dag.tasks.map fun t => { t with priority := rms_priority t.period } }

/-- `create_dag` (`src/scheduler.c`, lines 109-162): `num_tasks` tasks with
ids `0..num_tasks-1`, empty dependency lists, cleared execution state, and a
zeroed adjacency matrix. -/
def create_dag (num_tasks : Nat) : DAG :=
  { tasks := (List.range num_tasks).map fun i =>
      { id := Int.ofNat i, name := "Task" ++ toString i, duration := 0, period := 0,
        priority := 0, dependencies := [], completed := false, remaining_time := 0,
        core_assigned := -1, start_time := -1, finish_time := -1 },
    adjacency_matrix := (List.range num_tasks).map fun _ => List.replicate num_tasks 0,
    has_cycles := false }

/-- The per-task input loop of `create_custom_dag` (`src/scheduler.c`,
lines 230-244): each pair is (duration, period); the duration is copied to
`remaining_time` and a negative period is replaced by the default 500. -/
def read_task_inputs (dag : DAG) (inputs : List (Int × Int)) : DAG :=
  { dag with tasks := dag.tasks.zipWith (fun t inp =>
      { t with duration := inp.1, remaining_time := inp.1,
               period := if inp.2 < 0 then 500 else inp.2 }) inputs }

/-- Writes a 1 at row `r`, column `c` of the adjacency matrix
(`dag->adjacency_matrix[r][c] = 1`). -/
def set_matrix_entry (m : List (List Nat)) (r c : Nat) : List (List Nat) :=
  m.set r ((m.getD r []).set c 1)

/-- One iteration of the dependency-declaration loop of `create_custom_dag`
(`src/scheduler.c`, lines 252-293): rejects an out-of-range `task`, an
out-of-range `depends_on`, a self-dependency, and a duplicate edge, each
leaving the DAG unchanged; otherwise records the edge in the adjacency
matrix and appends `depends_on` to `task`'s dependency list. -/
def add_dependency (dag : DAG) (task depends_on : Int) : DAG :=
  if task < 0 ∨ Int.ofNat dag.tasks.length ≤ task then dag
  else if depends_on < 0 ∨ Int.ofNat dag.tasks.length ≤ depends_on then dag
  else if task = depends_on then dag
  else
    let t := task.toNat
    let d := depends_on.toNat
    if (dag.tasks.getD t default).dependencies.contains d then dag
    else
      { dag with
        adjacency_matrix := set_matrix_entry dag.adjacency_matrix d t,
        tasks := dag.tasks.set t
          (let tk := dag.tasks.getD t default
           { tk with dependencies := tk.dependencies ++ [d] }) }

/-- The dependency-declaration `while` loop of `create_custom_dag`: the
sentinel task id -1 stops the loop, every other pair goes through
`add_dependency`. -/
def process_dependencies (dag : DAG) : List (Int × Int) → DAG
  | [] => dag
  | (task, depends_on) :: rest =>
    if task = -1 then dag
    else process_dependencies (add_dependency dag task depends_on) rest

/-- `create_custom_dag` (`src/scheduler.c`, lines 218-300) with the three
interactive reads (task count, per-task (duration, period) pairs, and
dependency pairs) as arguments.  An out-of-range task count falls back to
5.  The final `detect_cycles` call only sets the diagnostic `has_cycles`
flag, which nothing in the scheduler reads, and is not modelled. -/
def create_custom_dag (num_tasks_input : Int) (inputs : List (Int × Int))
    (deps : List (Int × Int)) : DAG :=
  let n := if num_tasks_input < 1 ∨ 100 < num_tasks_input then 5 else num_tasks_input.toNat
  let dag := apply_rate_monotonic_scheduling (read_task_inputs (create_dag n) inputs)
  process_dependencies dag deps

/-- `is_task_ready` (`src/scheduler.c`, lines 394-408): a completed task is
not ready; otherwise the task is ready iff every id in its dependency list
refers to a completed task. -/
def is_task_ready (dag : DAG) (task_id : Nat) : Bool :=
  let t := dag.tasks.getD task_id default
  if t.completed then false
  else t.dependencies.all fun dep_id => (dag.tasks.getD dep_id default).completed

/-- The selection condition of `find_highest_priority_ready_task`: ready and
not currently assigned to any core. -/
def is_candidate (dag : DAG) (i : Nat) : Bool :=
  is_task_ready dag i && ((dag.tasks.getD i default).core_assigned == -1)

/-- The scan loop of `find_highest_priority_ready_task` (`src/scheduler.c`,
lines 414-427) with the loop counter list and the two accumulator variables
(`highest_priority`, `selected_task`) explicit. -/
def find_loop (dag : DAG) : List Nat → Int → Int → Int
  | [], _, selected_task => selected_task
  | i :: rest, highest_priority, selected_task =>
    if is_candidate dag i then
      if selected_task = -1 ∨ (dag.tasks.getD i default).priority > highest_priority then
        find_loop dag rest (dag.tasks.getD i default).priority (Int.ofNat i)
      else if (dag.tasks.getD i default).priority = highest_priority
           ∧ (dag.tasks.getD i default).period < (dag.tasks.getD selected_task.toNat default).period then
        find_loop dag rest highest_priority (Int.ofNat i)
      else find_loop dag rest highest_priority selected_task
    else find_loop dag rest highest_priority selected_task

/-- `find_highest_priority_ready_task` (`src/scheduler.c`, lines 410-430):
scans task ids in ascending order and returns -1 when no ready unassigned
task exists. -/
def find_highest_priority_ready_task (dag : DAG) : Int :=
  find_loop dag (List.range dag.tasks.length) (-1) (-1)

/-- The per-task body of `reset_dag_execution`. -/
def reset_update (t : Task) : Task :=
  { t with completed := false, remaining_time := t.duration, core_assigned := -1,
           start_time := -1, finish_time := -1 }

/-- `reset_dag_execution` (`src/scheduler.c`, lines 432-440). -/
def reset_dag_execution (dag : DAG) : DAG :=
  { dag with tasks := dag.tasks.map reset_update }

/-- Updates task `j` of the DAG in place. -/
def update_task (dag : DAG) (j : Nat) (f : Task → Task) : DAG :=
  { dag with tasks := dag.tasks.set j (f (dag.tasks.getD j default)) }

/-- Task `j` of the state (reads the C task array). -/
def task_at (s : SimState) (j : Nat) : Task := s.dag.tasks.getD j default

/-- Core `i` of the state (reads the C core array). -/
def core_at (s : SimState) (i : Nat) : Core := s.cores.getD i default

/-- The task-field writes of the completion branch (`src/scheduler.c`,
lines 495-499): decremented remaining time stored, completed flag set, task
unbound, finish time recorded. -/
def complete_update (time : Nat) (rem : Int) (tk : Task) : Task :=
  { tk with remaining_time := rem, completed := true, core_assigned := -1,
            finish_time := Int.ofNat time }

/-- The task-field writes of the preemption branch (`src/scheduler.c`,
lines 510-517): decremented remaining time stored, task unbound. -/
def preempt_update (rem : Int) (tk : Task) : Task :=
  { tk with remaining_time := rem, core_assigned := -1 }

/-- The task-field write of an uneventful running tick: only the
decremented remaining time is stored. -/
def running_update (rem : Int) (tk : Task) : Task :=
  { tk with remaining_time := rem }

/-- The task-field writes of the assignment branch (`src/scheduler.c`,
lines 531-534): task bound to core `i`, start time recorded on first
run. -/
def bind_update (i : Nat) (time : Nat) (tk : Task) : Task :=
  { tk with core_assigned := Int.ofNat i,
            start_time := if tk.start_time = -1 then Int.ofNat time else tk.start_time }

/-- The body of the first per-core loop of the main simulation loop
(`src/scheduler.c`, lines 486-519) for core `i`: a running core decrements
its task's remaining time and its own quantum counter; a task whose
remaining time reached 0 is completed (finish time recorded, task unbound,
core freed, completion counter bumped), otherwise an expired quantum
preempts the task back to the unassigned pool. -/
def advance_core (s : SimState) (i : Nat) : SimState :=
  let c := core_at s i
  if c.is_idle then s
  else
    match c.current_task with
    | none => s
    | some j =>
      let t := task_at s j
      let rem := t.remaining_time - 1
      let slice := c.time_slice_remaining - 1
      if rem ≤ 0 then
        { s with
          dag := update_task s.dag j (complete_update s.simulation_time rem),
          cores := s.cores.set i
            { c with is_idle := true, current_task := none, time_slice_remaining := 0 },
          completed_tasks := s.completed_tasks + 1 }
      else if slice ≤ 0 then
        { s with
          dag := update_task s.dag j (preempt_update rem),
          cores := s.cores.set i
            { c with is_idle := true, current_task := none, time_slice_remaining := slice } }
      else
        { s with
          dag := update_task s.dag j (running_update rem),
          cores := s.cores.set i { c with time_slice_remaining := slice } }

/-- The first per-core loop, over cores in ascending id order. -/
def advance_all_cores (s : SimState) : SimState :=
  (List.range s.cores.length).foldl advance_core s

/-- The body of the second per-core loop (`src/scheduler.c`, lines 522-541)
for core `i`: an idle core asks `find_highest_priority_ready_task` for a
task; on success the task is bound, the quantum counter reset, and the
task's start time recorded if this is its first-ever run. -/
def assign_core (quantum : Int) (s : SimState) (i : Nat) : SimState :=
  let c := core_at s i
  if c.is_idle then
    let task_id := find_highest_priority_ready_task s.dag
    if task_id = -1 then s
    else
      let j := task_id.toNat
      { s with
        cores := s.cores.set i
          { c with current_task := some j, is_idle := false, time_slice_remaining := quantum },
        dag := update_task s.dag j (bind_update i s.simulation_time) }
  else s

/-- The second per-core loop, over cores in ascending id order. -/
def assign_all_cores (quantum : Int) (s : SimState) : SimState :=
  (List.range s.cores.length).foldl (assign_core quantum) s

/-- The idle-time accounting loop (`src/scheduler.c`, lines 546-550). -/
def count_idle_time (s : SimState) : SimState :=
  { s with cores := s.cores.map fun c =>
      if c.is_idle then { c with total_idle_time := c.total_idle_time + 1 } else c }

/-- One iteration of the main simulation loop (`src/scheduler.c`, lines
484-565): advance running cores, fill idle cores, advance the clock,
account idle time. -/
def scheduler_tick (quantum : Int) (s : SimState) : SimState :=
  let s1 := advance_all_cores s
  let s2 := assign_all_cores quantum s1
  let s3 := { s2 with simulation_time := s2.simulation_time + 1 }
  count_idle_time s3

/-- The main simulation `while` loop: runs while `completed_tasks <
num_tasks`, breaking once the clock exceeds the fixed safety bound 10000.
The fuel argument only bounds the recursion; with fuel at least 10002 and a
clock starting at 0 the fuel can never be what stops the loop, because each
iteration advances the clock by exactly 1 and the safety check fires at
clock 10001. -/
def run_loop (quantum : Int) : Nat → SimState → SimState
  | 0, s => s
  | fuel + 1, s =>
    if s.completed_tasks < s.dag.tasks.length then
      let s1 := scheduler_tick quantum s
      if 10000 < s1.simulation_time then s1
      else run_loop quantum fuel s1
    else s

/-- One freshly initialized core (`src/scheduler.c`, lines 476-480). -/
def fresh_core (i : Nat) : Core :=
  { core_id := i, current_task := none, time_slice_remaining := 0,
    is_idle := true, total_idle_time := 0 }

/-- Core initialization of `simulate_hybrid_scheduler` (`src/scheduler.c`,
lines 474-481). -/
def init_cores (num_cores : Nat) : List Core :=
  (List.range num_cores).map fresh_core

/-- The state at the top of the main loop of `simulate_hybrid_scheduler`:
execution state reset, clock and completion counter zeroed, cores fresh. -/
def init_state (dag : DAG) (num_cores : Nat) : SimState :=
  { dag := reset_dag_execution dag, cores := init_cores num_cores,
    simulation_time := 0, completed_tasks := 0 }

/-- `simulate_hybrid_scheduler` (`src/scheduler.c`, lines 465-606): the
final state of the main loop, from which the printed results (start/finish
times, idle counters) are read. -/
def simulate_hybrid_scheduler (dag : DAG) (num_cores : Nat) (quantum : Int) : SimState :=
  run_loop quantum 10002 (init_state dag num_cores)

/-! ### Console output as data

The C loop interleaves `printf` calls (and a `usleep`-based pacing delay)
with the state updates above.  Neither writes to any scheduler state, so
they are modelled as string lists computed alongside the state: each
`*_log` function replays exactly the branch structure of the corresponding
state function and collects what that branch prints. -/

/-- `delay_ms` (`src/scheduler.c`, lines 75-80): `usleep` for 1-100 ms,
which touches no scheduler state in either branch. -/
def delay_ms (ms : Int) : Unit :=
  if 0 < ms ∧ ms ≤ 100 then () else ()

/-- `print_execution_trace` (`src/scheduler.c`, lines 442-448): prints one
line only when the debug flag is set. -/
def print_execution_trace (debug_mode : Bool) (time : Nat) (core_id : Nat)
    (t : Task) (event : String) : List String :=
  if debug_mode then
    ["Time " ++ toString time ++ ": Core " ++ toString core_id ++ " - " ++ event ++ " "
      ++ t.name ++ " (Period: " ++ toString t.period ++ ", Priority: " ++ toString t.priority
      ++ ", " ++ toString t.remaining_time ++ " ms remaining)"]
  else []

/-- The `printf` output of `advance_core` for core `i` (trace lines are
printed after the decrements, so the traced task carries the decremented
remaining time). -/
def advance_core_log (debug_mode : Bool) (s : SimState) (i : Nat) : List String :=
  let c := core_at s i
  if c.is_idle then []
  else
    match c.current_task with
    | none => []
    | some j =>
      let t := task_at s j
      let rem := t.remaining_time - 1
      let slice := c.time_slice_remaining - 1
      if rem ≤ 0 then
        print_execution_trace debug_mode s.simulation_time i { t with remaining_time := rem } "Completed"
          ++ ["Completed Task " ++ toString t.id ++ " (" ++ t.name ++ ") on Core " ++ toString i
              ++ " for " ++ toString t.duration ++ " ms (Period: " ++ toString t.period
              ++ " ms, Priority: " ++ toString t.priority ++ ")"]
      else if slice ≤ 0 then
        print_execution_trace debug_mode s.simulation_time i { t with remaining_time := rem } "Preempted"
      else []

/-- The first per-core loop together with its console output. -/
def advance_all_cores_full (debug_mode : Bool) (s : SimState) : SimState × List String :=
  (List.range s.cores.length).foldl
    (fun acc i => (advance_core acc.1 i, acc.2 ++ advance_core_log debug_mode acc.1 i)) (s, [])

/-- The `printf` output of `assign_core` for core `i`. -/
def assign_core_log (debug_mode : Bool) (s : SimState) (i : Nat) : List String :=
  let c := core_at s i
  if c.is_idle then
    let task_id := find_highest_priority_ready_task s.dag
    if task_id = -1 then []
    else
      let t := task_at s task_id.toNat
      print_execution_trace debug_mode s.simulation_time i t "Started"
        ++ ["Executing Task " ++ toString t.id ++ " (" ++ t.name ++ ") on Core " ++ toString i
            ++ " (Period: " ++ toString t.period ++ " ms, Priority: " ++ toString t.priority ++ ")"]
  else []

/-- The second per-core loop together with its console output. -/
def assign_all_cores_full (debug_mode : Bool) (quantum : Int) (s : SimState) :
    SimState × List String :=
  (List.range s.cores.length).foldl
    (fun acc i => (assign_core quantum acc.1 i, acc.2 ++ assign_core_log debug_mode acc.1 i)) (s, [])

/-- One iteration of the main loop together with its console output: the
progress bar fires every 20 ticks and the pacing delay runs between ticks;
neither touches the state. -/
def scheduler_tick_full (debug_mode : Bool) (delay quantum : Int) (s : SimState) :
    SimState × List String :=
  let r1 := advance_all_cores_full debug_mode s
  let r2 := assign_all_cores_full debug_mode quantum r1.1
  let s3 := { r2.1 with simulation_time := r2.1.simulation_time + 1 }
  let s4 := count_idle_time s3
  let progress :=
    if s4.simulation_time % 20 = 0 then
      ["progress " ++ toString s4.completed_tasks ++ "/" ++ toString s4.dag.tasks.length]
    else []
  let _u := delay_ms delay
  (s4, r1.2 ++ r2.2 ++ progress)

/-- The main loop together with its console output. -/
def run_loop_full (debug_mode : Bool) (delay quantum : Int) :
    Nat → SimState → SimState × List String
  | 0, s => (s, [])
  | fuel + 1, s =>
    if s.completed_tasks < s.dag.tasks.length then
      let r := scheduler_tick_full debug_mode delay quantum s
      if 10000 < r.1.simulation_time then
        (r.1, r.2 ++ ["Simulation exceeded time limit. Possible deadlock or very long tasks."])
      else
        let rest := run_loop_full debug_mode delay quantum fuel r.1
        (rest.1, r.2 ++ rest.2)
    else (s, [])

/-- `simulate_hybrid_scheduler` with the debug flag and the pacing delay
explicit, returning the final state together with everything printed. -/
def simulate_hybrid_scheduler_full (dag : DAG) (num_cores : Nat) (quantum : Int)
    (debug_mode : Bool) (delay : Int) : SimState × List String :=
  run_loop_full debug_mode delay quantum 10002 (init_state dag num_cores)

/-! ### Concrete fixtures used by the claims -/

/-- The 3-task, no-dependency workload of the end-to-end scenario:
durations `[4, 2, 3]`, default period 500 everywhere. -/
def c1_dag : DAG := create_custom_dag 3 [(4, 500), (2, 500), (3, 500)] []

/-- Two tasks forming a pure dependency 2-cycle: task 0 depends on task 1
and task 1 depends on task 0. -/
def two_cycle_dag : DAG := create_custom_dag 2 [(5, 500), (5, 500)] [(0, 1), (1, 0)]

/-- A single task whose user-entered execution time is 0. -/
def zero_duration_dag : DAG := create_custom_dag 1 [(0, 500)] []

/-- Three identical tasks (duration 4, period 500): every pair ties on both
priority and period. -/
def eq_dag : DAG := create_custom_dag 3 [(4, 500), (4, 500), (4, 500)] []

/-- Task 0 aperiodic (period 0), task 1 with period 2000; both receive
priority 1 from `apply_rate_monotonic_scheduling`. -/
def tie_dag : DAG := create_custom_dag 2 [(3, 0), (3, 2000)] []

/-- Two tasks with periods 100 and 500, before priority assignment. -/
def c4_base_dag : DAG := read_task_inputs (create_dag 2) [(3, 100), (3, 500)]

/-- The state of the cyclic run after `t` iterations: nothing ever becomes
ready, so the only changes per tick are the clock and the single core's
idle counter. -/
def stuck_state (t : Nat) : SimState :=
  { dag := (init_state two_cycle_dag 1).dag,
    cores := [{ core_id := 0, current_task := none, time_slice_remaining := 0,
                is_idle := true, total_idle_time := t }],
    simulation_time := t, completed_tasks := 0 }

/-! ### Specification predicates -/

/-- Task `s` is at least as preferable as task `i` under the selection
order of `find_highest_priority_ready_task`: strictly higher priority, or
equal priority and strictly smaller period, or a full tie won by the
smaller id. -/
def beats (dag : DAG) (s i : Nat) : Prop :=
  (dag.tasks.getD i default).priority < (dag.tasks.getD s default).priority
  ∨ ((dag.tasks.getD i default).priority = (dag.tasks.getD s default).priority
     ∧ (dag.tasks.getD s default).period < (dag.tasks.getD i default).period)
  ∨ ((dag.tasks.getD i default).priority = (dag.tasks.getD s default).priority
     ∧ (dag.tasks.getD i default).period = (dag.tasks.getD s default).period ∧ s ≤ i)

/-- Per-task execution-state invariant at clock value `time`: a completed
task has remaining time exactly 0 and a finish no earlier than its start; an
uncompleted task still has at least one tick of work; a task bound to a core
is uncompleted and has started; a started task started at a clock value
between 0 and `time`. -/
def TaskInv (time : Nat) (t : Task) : Prop :=
  (t.completed = true → t.remaining_time = 0 ∧ 0 ≤ t.start_time ∧ t.start_time ≤ t.finish_time)
  ∧ (t.completed = false → 1 ≤ t.remaining_time)
  ∧ (t.core_assigned ≠ -1 → t.completed = false ∧ t.start_time ≠ -1)
  ∧ (t.start_time ≠ -1 → 0 ≤ t.start_time ∧ t.start_time ≤ Int.ofNat time)

/-- All tasks satisfy `TaskInv`. -/
def TasksInv (s : SimState) : Prop :=
  ∀ j, j < s.dag.tasks.length → TaskInv s.simulation_time (task_at s j)

/-- Core-side consistency: an idle core holds no task, and a held task is a
valid, uncompleted task whose own assignment field points back at the
core. -/
def CoresInv (s : SimState) : Prop :=
  ∀ i, i < s.cores.length →
    ((core_at s i).is_idle = true → (core_at s i).current_task = none)
    ∧ ∀ j, (core_at s i).current_task = some j →
        (core_at s i).is_idle = false ∧ j < s.dag.tasks.length
        ∧ (task_at s j).core_assigned = Int.ofNat i ∧ (task_at s j).completed = false

/-- Task-side consistency: a task whose assignment field names core `i`
really is the task core `i` holds. -/
def LinkInv (s : SimState) : Prop :=
  ∀ j, j < s.dag.tasks.length → ∀ i : Nat, (task_at s j).core_assigned = Int.ofNat i →
    i < s.cores.length ∧ (core_at s i).current_task = some j

/-- The full simulation-loop invariant. -/
def SimInv (s : SimState) : Prop := TasksInv s ∧ CoresInv s ∧ LinkInv s

end HybridDag

namespace HybridDag

/-! ## Helper lemmas -/

lemma getD_set_self {α : Type} (l : List α) (i : Nat) (a d : α)
    (h : i < l.length) : (l.set i a).getD i d = a := by
  simp [List.getD_eq_getElem?_getD, List.getElem?_set_self h]

lemma getD_set_ne {α : Type} (l : List α) {i j : Nat} (a d : α)
    (h : i ≠ j) : (l.set i a).getD j d = l.getD j d := by
  simp [List.getD_eq_getElem?_getD, List.getElem?_set_ne h]

lemma beats_self (dag : DAG) (s : Nat) : beats dag s s :=
  Or.inr (Or.inr ⟨rfl, rfl, le_rfl⟩)

lemma beats_priority_le (dag : DAG) {s i : Nat} (h : beats dag s i) :
    (dag.tasks.getD i default).priority ≤ (dag.tasks.getD s default).priority := by
  simp only [beats] at h; omega

lemma beats_switch_gt (dag : DAG) {s a s0 : Nat}
    (h1 : (dag.tasks.getD s0 default).priority < (dag.tasks.getD a default).priority)
    (h2 : beats dag s a) : beats dag s s0 := by
  simp only [beats] at *; omega

lemma beats_switch_tie (dag : DAG) {s a s0 : Nat}
    (h1 : (dag.tasks.getD a default).priority = (dag.tasks.getD s0 default).priority)
    (h2 : (dag.tasks.getD a default).period < (dag.tasks.getD s0 default).period)
    (h3 : beats dag s a) : beats dag s s0 := by
  simp only [beats] at *; omega

lemma beats_no_switch (dag : DAG) {s a s0 : Nat}
    (h1 : ¬ (dag.tasks.getD a default).priority > (dag.tasks.getD s0 default).priority)
    (h2 : ¬ ((dag.tasks.getD a default).priority = (dag.tasks.getD s0 default).priority
          ∧ (dag.tasks.getD a default).period < (dag.tasks.getD s0 default).period))
    (h3 : s0 < a)
    (h4 : beats dag s s0) : beats dag s a := by
  simp only [beats] at *; omega

lemma find_loop_spec (dag : DAG) (l : List Nat) :
    ∀ highest selected : Int,
    l.Pairwise (fun x y => x < y) →
    (∀ i ∈ l, i < dag.tasks.length) →
    (selected = -1 ∨ ∃ s0 : Nat, selected = Int.ofNat s0 ∧ s0 < dag.tasks.length ∧
       is_candidate dag s0 = true ∧ highest = (dag.tasks.getD s0 default).priority ∧
       ∀ i ∈ l, s0 < i) →
    (find_loop dag l highest selected = selected ∧ ∀ i ∈ l, ¬ is_candidate dag i = true)
    ∨ (∃ s : Nat, find_loop dag l highest selected = Int.ofNat s ∧ s < dag.tasks.length ∧
        is_candidate dag s = true ∧ (∀ i ∈ l, is_candidate dag i = true → beats dag s i) ∧
        ∀ s0 : Nat, selected = Int.ofNat s0 → beats dag s s0) := by
  induction l with
  | nil =>
    intro highest selected _ _ hacc
    rcases hacc with h | ⟨s0, hsel, hlen, hcand, _, _⟩
    · exact Or.inl ⟨rfl, by simp⟩
    · refine Or.inr ⟨s0, by simp [find_loop, hsel], hlen, hcand, by simp, ?_⟩
      intro s1 h1
      rw [hsel] at h1
      rw [(Int.ofNat.inj h1).symm]
      exact beats_self dag s0
  | cons a rest ih =>
    intro highest selected hpw hbound hacc
    have hpw' : rest.Pairwise (fun x y => x < y) := (List.pairwise_cons.mp hpw).2
    have halt : ∀ i ∈ rest, a < i := (List.pairwise_cons.mp hpw).1
    have hbound' : ∀ i ∈ rest, i < dag.tasks.length :=
      fun i hi => hbound i (List.mem_cons_of_mem a hi)
    have halen : a < dag.tasks.length := hbound a (List.mem_cons_self a rest)
    by_cases hca : is_candidate dag a = true
    · by_cases hfirst : selected = -1 ∨ (dag.tasks.getD a default).priority > highest
      · -- switch to a, raising highest
        have hstep : find_loop dag (a :: rest) highest selected
            = find_loop dag rest (dag.tasks.getD a default).priority (Int.ofNat a) := by
          simp only [find_loop]
          rw [if_pos hca, if_pos hfirst]
        have hacc' : (Int.ofNat a : Int) = -1 ∨ ∃ s0 : Nat, (Int.ofNat a : Int) = Int.ofNat s0 ∧
            s0 < dag.tasks.length ∧ is_candidate dag s0 = true ∧
            (dag.tasks.getD a default).priority = (dag.tasks.getD s0 default).priority ∧
            ∀ i ∈ rest, s0 < i :=
          Or.inr ⟨a, rfl, halen, hca, rfl, halt⟩
        have hinpbeats : ∀ r : Nat, beats dag r a →
            ∀ s0 : Nat, selected = Int.ofNat s0 → beats dag r s0 := by
          intro r hba s0 hs0
          rcases hacc with h2 | ⟨s1, hsel, _, _, hh, _⟩
          · rw [h2] at hs0; simp at hs0
          · have he : s0 = s1 := (Int.ofNat.inj (by rw [← hsel, hs0])).symm
            subst he
            rcases hfirst with h | h
            · rw [h] at hsel; simp at hsel
            · exact beats_switch_gt dag (by omega) hba
        rcases ih (dag.tasks.getD a default).priority (Int.ofNat a) hpw' hbound' hacc' with
          ⟨hres, hnone⟩ | ⟨s, hres, hslen, hscand, hall, hinp⟩
        · refine Or.inr ⟨a, by rw [hstep, hres], halen, hca, ?_, hinpbeats a (beats_self dag a)⟩
          intro i hi hci
          rcases List.mem_cons.mp hi with h | h
          · rw [h]; exact beats_self dag a
          · exact absurd hci (hnone i h)
        · have hba : beats dag s a := hinp a rfl
          refine Or.inr ⟨s, by rw [hstep, hres], hslen, hscand, ?_, hinpbeats s hba⟩
          intro i hi hci
          rcases List.mem_cons.mp hi with h | h
          · rw [h]; exact hba
          · exact hall i h hci
      · -- a does not raise highest; selected stays for now
        have hselne : ¬ selected = -1 := fun hh2 => hfirst (Or.inl hh2)
        rcases hacc with h2 | ⟨s1, hsel, hs1len, hs1cand, hh, hslt⟩
        · exact absurd h2 hselne
        have hprle : ¬ (dag.tasks.getD a default).priority > highest :=
          fun hh2 => hfirst (Or.inr hh2)
        have htn : selected.toNat = s1 := by rw [hsel]; simp
        have hslt1 : s1 < a := hslt a (List.mem_cons_self a rest)
        by_cases htie : (dag.tasks.getD a default).priority = highest
            ∧ (dag.tasks.getD a default).period < (dag.tasks.getD selected.toNat default).period
        · -- tie switch to a, keeping highest
          have hstep : find_loop dag (a :: rest) highest selected
              = find_loop dag rest highest (Int.ofNat a) := by
            simp only [find_loop]
            rw [if_pos hca, if_neg hfirst, if_pos htie]
          have hacc' : (Int.ofNat a : Int) = -1 ∨ ∃ s0 : Nat, (Int.ofNat a : Int) = Int.ofNat s0 ∧
              s0 < dag.tasks.length ∧ is_candidate dag s0 = true ∧
              highest = (dag.tasks.getD s0 default).priority ∧ ∀ i ∈ rest, s0 < i :=
            Or.inr ⟨a, rfl, halen, hca, htie.1.symm, halt⟩
          have htie2 : (dag.tasks.getD a default).period < (dag.tasks.getD s1 default).period := by
            rw [htn] at htie; exact htie.2
          have hpra : (dag.tasks.getD a default).priority = (dag.tasks.getD s1 default).priority := by
            rw [← hh]; exact htie.1
          have hinpbeats : ∀ r : Nat, beats dag r a →
              ∀ s0 : Nat, selected = Int.ofNat s0 → beats dag r s0 := by
            intro r hba s0 hs0
            have he : s0 = s1 := (Int.ofNat.inj (by rw [← hsel, hs0])).symm
            subst he
            exact beats_switch_tie dag hpra htie2 hba
          rcases ih highest (Int.ofNat a) hpw' hbound' hacc' with
            ⟨hres, hnone⟩ | ⟨s, hres, hslen, hscand, hall, hinp⟩
          · refine Or.inr ⟨a, by rw [hstep, hres], halen, hca, ?_, hinpbeats a (beats_self dag a)⟩
            intro i hi hci
            rcases List.mem_cons.mp hi with h | h
            · rw [h]; exact beats_self dag a
            · exact absurd hci (hnone i h)
          · have hba : beats dag s a := hinp a rfl
            refine Or.inr ⟨s, by rw [hstep, hres], hslen, hscand, ?_, hinpbeats s hba⟩
            intro i hi hci
            rcases List.mem_cons.mp hi with h | h
            · rw [h]; exact hba
            · exact hall i h hci
        · -- no switch: a is skipped
          have hstep : find_loop dag (a :: rest) highest selected
              = find_loop dag rest highest selected := by
            simp only [find_loop]
            rw [if_pos hca, if_neg hfirst, if_neg htie]
          have hacc' : selected = -1 ∨ ∃ s0 : Nat, selected = Int.ofNat s0 ∧
              s0 < dag.tasks.length ∧ is_candidate dag s0 = true ∧
              highest = (dag.tasks.getD s0 default).priority ∧ ∀ i ∈ rest, s0 < i :=
            Or.inr ⟨s1, hsel, hs1len, hs1cand, hh, fun i hi => hslt i (List.mem_cons_of_mem a hi)⟩
          rw [htn] at htie
          have hno1 : ¬ (dag.tasks.getD a default).priority > (dag.tasks.getD s1 default).priority := by
            rw [← hh]; exact hprle
          have hno2 : ¬ ((dag.tasks.getD a default).priority = (dag.tasks.getD s1 default).priority
              ∧ (dag.tasks.getD a default).period < (dag.tasks.getD s1 default).period) := by
            rw [← hh]; exact htie
          rcases ih highest selected hpw' hbound' hacc' with
            ⟨hres, hnone⟩ | ⟨s, hres, hslen, hscand, hall, hinp⟩
          · refine Or.inr ⟨s1, by rw [hstep, hres, hsel], hs1len, hs1cand, ?_, ?_⟩
            · intro i hi hci
              rcases List.mem_cons.mp hi with h | h
              · rw [h]
                exact beats_no_switch dag hno1 hno2 hslt1 (beats_self dag s1)
              · exact absurd hci (hnone i h)
            · intro s0 hs0
              have he : s0 = s1 := (Int.ofNat.inj (by rw [← hsel, hs0])).symm
              rw [he]; exact beats_self dag s1
          · have hbs1 : beats dag s s1 := hinp s1 hsel
            refine Or.inr ⟨s, by rw [hstep, hres], hslen, hscand, ?_, hinp⟩
            intro i hi hci
            rcases List.mem_cons.mp hi with h | h
            · rw [h]
              exact beats_no_switch dag hno1 hno2 hslt1 hbs1
            · exact hall i h hci
    · -- a is not a candidate
      have hstep : find_loop dag (a :: rest) highest selected
          = find_loop dag rest highest selected := by
        simp only [find_loop]
        rw [if_neg hca]
      have hacc' : selected = -1 ∨ ∃ s0 : Nat, selected = Int.ofNat s0 ∧
          s0 < dag.tasks.length ∧ is_candidate dag s0 = true ∧
          highest = (dag.tasks.getD s0 default).priority ∧ ∀ i ∈ rest, s0 < i := by
        rcases hacc with h | ⟨s0, hsel, h1, h2, h3, h4⟩
        · exact Or.inl h
        · exact Or.inr ⟨s0, hsel, h1, h2, h3, fun i hi => h4 i (List.mem_cons_of_mem a hi)⟩
      rcases ih highest selected hpw' hbound' hacc' with
        ⟨hres, hnone⟩ | ⟨s, hres, hslen, hscand, hall, hinp⟩
      · refine Or.inl ⟨by rw [hstep, hres], ?_⟩
        intro i hi
        rcases List.mem_cons.mp hi with h | h
        · rw [h]; exact hca
        · exact hnone i h
      · refine Or.inr ⟨s, by rw [hstep, hres], hslen, hscand, ?_, hinp⟩
        intro i hi hci
        rcases List.mem_cons.mp hi with h | h
        · rw [h] at hci; exact absurd hci hca
        · exact hall i h hci

/-- Top-level specification of `find_highest_priority_ready_task`. -/
lemma find_spec (dag : DAG) :
    (find_highest_priority_ready_task dag = -1 ∧ ∀ i, i < dag.tasks.length → ¬ is_candidate dag i = true)
    ∨ (∃ s : Nat, find_highest_priority_ready_task dag = Int.ofNat s ∧ s < dag.tasks.length ∧
        is_candidate dag s = true ∧ ∀ i, i < dag.tasks.length → is_candidate dag i = true → beats dag s i) := by
  have h := find_loop_spec dag (List.range dag.tasks.length) (-1) (-1)
    (List.pairwise_lt_range dag.tasks.length)
    (fun i hi => List.mem_range.mp hi) (Or.inl rfl)
  rcases h with ⟨hres, hnone⟩ | ⟨s, hres, hslen, hscand, hall, _⟩
  · exact Or.inl ⟨hres, fun i hi => hnone i (List.mem_range.mpr hi)⟩
  · exact Or.inr ⟨s, hres, hslen, hscand, fun i hi hci => hall i (List.mem_range.mpr hi) hci⟩

end HybridDag

namespace HybridDag

/-! ## The cyclic two-task run -/

/-- In the 2-cycle run no task is ever ready, so one tick only advances the
clock and the idle counter. -/
lemma tick_stuck (q : Int) (t : Nat) :
    scheduler_tick q (stuck_state t) = stuck_state (t + 1) := rfl

lemma init_two_cycle : init_state two_cycle_dag 1 = stuck_state 0 := rfl

/-- Closed form of the whole cyclic run: the loop keeps ticking until the
clock passes the safety bound 10000, never completing anything. -/
lemma run_loop_stuck (q : Int) :
    ∀ fuel t, t ≤ 10000 →
    run_loop q fuel (stuck_state t) = stuck_state (min (t + fuel) 10001) := by
  intro fuel
  induction fuel with
  | zero =>
    intro t ht
    have : min (t + 0) 10001 = t := by omega
    rw [this, run_loop]
  | succ f ihf =>
    intro t ht
    have hcond : (stuck_state t).completed_tasks < (stuck_state t).dag.tasks.length := by
      show 0 < 2
      omega
    rw [run_loop, if_pos hcond]
    simp only [tick_stuck]
    by_cases hbr : 10000 < (stuck_state (t + 1)).simulation_time
    · rw [if_pos hbr]
      have ht1 : t = 10000 := by
        have : (stuck_state (t + 1)).simulation_time = t + 1 := rfl
        omega
      subst ht1
      have : min (10000 + (f + 1)) 10001 = 10001 := by omega
      rw [this]
    · rw [if_neg hbr]
      have ht1 : t + 1 ≤ 10000 := by
        have : (stuck_state (t + 1)).simulation_time = t + 1 := rfl
        omega
      rw [ihf (t + 1) ht1]
      have : min (t + 1 + f) 10001 = min (t + (f + 1)) 10001 := by omega
      rw [this]

/-! ## Rate-monotonic priority arithmetic -/

lemma rms_priority_bounds (p : Int) : 1 ≤ rms_priority p ∧ rms_priority p ≤ 10 := by
  simp only [rms_priority]
  split_ifs <;> omega

lemma rms_priority_zero : rms_priority 0 = 1 := rfl

lemma rms_priority_mono {p1 p2 : Int} (h0 : 0 < p1) (h : p1 < p2) :
    rms_priority p2 ≤ rms_priority p1 := by
  simp only [rms_priority]
  split_ifs <;> omega

/-! ## Dependency declarations -/

lemma add_dependency_rejected (dag : DAG) (task depends_on : Int)
    (h : task < 0 ∨ Int.ofNat dag.tasks.length ≤ task
       ∨ depends_on < 0 ∨ Int.ofNat dag.tasks.length ≤ depends_on
       ∨ task = depends_on
       ∨ (dag.tasks.getD task.toNat default).dependencies.contains depends_on.toNat = true) :
    add_dependency dag task depends_on = dag := by
  simp only [add_dependency]
  split_ifs with h1 h2 h3 h4
  · rfl
  · rfl
  · rfl
  · rfl
  · exfalso
    rcases h with h | h | h | h | h | h
    · exact h1 (Or.inl h)
    · exact h1 (Or.inr h)
    · exact h2 (Or.inl h)
    · exact h2 (Or.inr h)
    · exact h3 h
    · exact h4 h

lemma process_dependencies_skip (pre : List (Int × Int)) :
    ∀ (dag : DAG) (task depends_on : Int) (post : List (Int × Int)),
    task ≠ -1 →
    add_dependency (process_dependencies dag pre) task depends_on = process_dependencies dag pre →
    process_dependencies dag (pre ++ (task, depends_on) :: post)
      = process_dependencies dag (pre ++ post) := by
  induction pre with
  | nil =>
    intro dag task depends_on post hne hrej
    simp only [List.nil_append, process_dependencies]
    rw [if_neg hne]
    simp only [process_dependencies] at hrej
    rw [hrej]
  | cons a pre ih =>
    intro dag task depends_on post hne hrej
    obtain ⟨a1, a2⟩ := a
    simp only [List.cons_append, process_dependencies]
    by_cases ha : a1 = -1
    · rw [if_pos ha, if_pos ha]
    · rw [if_neg ha, if_neg ha]
      apply ih
      · exact hne
      · simpa only [process_dependencies, if_neg ha] using hrej

/-! ## Console output never feeds back into the state -/

lemma foldl_pair_fst {β : Type} (f : SimState → Nat → SimState)
    (g : SimState → Nat → List β) (l : List Nat) :
    ∀ p : SimState × List β,
    (l.foldl (fun acc i => (f acc.1 i, acc.2 ++ g acc.1 i)) p).1 = l.foldl f p.1 := by
  induction l with
  | nil => intro p; rfl
  | cons a l ih => intro p; exact ih (f p.1 a, p.2 ++ g p.1 a)

lemma advance_all_cores_full_fst (dbg : Bool) (s : SimState) :
    (advance_all_cores_full dbg s).1 = advance_all_cores s := by
  unfold advance_all_cores_full advance_all_cores
  exact foldl_pair_fst advance_core (advance_core_log dbg) (List.range s.cores.length) (s, [])

lemma assign_all_cores_full_fst (dbg : Bool) (q : Int) (s : SimState) :
    (assign_all_cores_full dbg q s).1 = assign_all_cores q s := by
  unfold assign_all_cores_full assign_all_cores
  exact foldl_pair_fst (assign_core q) (assign_core_log dbg) (List.range s.cores.length) (s, [])

lemma scheduler_tick_full_fst (dbg : Bool) (del q : Int) (s : SimState) :
    (scheduler_tick_full dbg del q s).1 = scheduler_tick q s := by
  simp only [scheduler_tick_full, scheduler_tick]
  rw [advance_all_cores_full_fst, assign_all_cores_full_fst]

lemma run_loop_full_fst (dbg : Bool) (del q : Int) :
    ∀ fuel s, (run_loop_full dbg del q fuel s).1 = run_loop q fuel s := by
  intro fuel
  induction fuel with
  | zero => intro s; rfl
  | succ f ihf =>
    intro s
    simp only [run_loop_full, run_loop]
    rw [scheduler_tick_full_fst]
    by_cases hc : s.completed_tasks < s.dag.tasks.length
    · rw [if_pos hc, if_pos hc]
      by_cases hbr : 10000 < (scheduler_tick q s).simulation_time
      · rw [if_pos hbr, if_pos hbr]
      · rw [if_neg hbr, if_neg hbr]
        exact ihf (scheduler_tick q s)
    · rw [if_neg hc, if_neg hc]

lemma simulate_full_fst (dag : DAG) (n : Nat) (q : Int) (dbg : Bool) (del : Int) :
    (simulate_hybrid_scheduler_full dag n q dbg del).1 = simulate_hybrid_scheduler dag n q := by
  unfold simulate_hybrid_scheduler_full simulate_hybrid_scheduler
  exact run_loop_full_fst dbg del q 10002 (init_state dag n)

end HybridDag

namespace HybridDag

/-! ## The simulation-loop invariant -/

lemma getD_of_ge {α : Type} (l : List α) (i : Nat) (d : α) (h : ¬ i < l.length) :
    l.getD i d = d := by
  rw [List.getD_eq_getElem?_getD, List.getElem?_eq_none (le_of_not_lt h)]
  rfl

lemma getD_map {α β : Type} (f : α → β) (l : List α) (i : Nat) (d : β) (d' : α)
    (h : i < l.length) : (l.map f).getD i d = f (l.getD i d') := by
  rw [List.getD_eq_getElem?_getD, List.getElem?_map, List.getElem?_eq_getElem h]
  rw [List.getD_eq_getElem?_getD, List.getElem?_eq_getElem h]
  rfl

lemma getD_range (n i : Nat) (h : i < n) : (List.range n).getD i 0 = i := by
  simp [List.getD_eq_getElem?_getD, List.getElem?_eq_getElem, h]

lemma getD_mem {α : Type} (l : List α) (j : Nat) (d : α) (h : j < l.length) :
    l.getD j d ∈ l := by
  rw [List.getD_eq_getElem?_getD, List.getElem?_eq_getElem h]
  exact List.getElem_mem h

lemma update_task_tasks_length (dag : DAG) (j : Nat) (f : Task → Task) :
    (update_task dag j f).tasks.length = dag.tasks.length := by
  simp [update_task]

lemma update_task_at_self (dag : DAG) (j : Nat) (f : Task → Task) (h : j < dag.tasks.length) :
    (update_task dag j f).tasks.getD j default = f (dag.tasks.getD j default) := by
  simp only [update_task]
  exact getD_set_self _ _ _ _ h

lemma update_task_at_ne (dag : DAG) {j k : Nat} (f : Task → Task) (h : j ≠ k) :
    (update_task dag j f).tasks.getD k default = dag.tasks.getD k default := by
  simp only [update_task]
  exact getD_set_ne _ _ _ h

lemma candidate_facts (dag : DAG) (i : Nat) (h : is_candidate dag i = true) :
    (dag.tasks.getD i default).core_assigned = -1
    ∧ (dag.tasks.getD i default).completed = false := by
  simp only [is_candidate, Bool.and_eq_true, beq_iff_eq] at h
  obtain ⟨hr, hc⟩ := h
  simp only [is_task_ready] at hr
  cases hcv : (dag.tasks.getD i default).completed
  · exact ⟨hc, rfl⟩
  · rw [hcv] at hr; simp at hr

/-- A step that unbinds task `j` from core `i` (completion or preemption)
preserves the invariant. -/
lemma inv_unbind (s S : SimState) (i j : Nat) (f : Task → Task) (c' : Core)
    (hS_dag : S.dag = update_task s.dag j f)
    (hS_cores : S.cores = s.cores.set i c')
    (hS_time : S.simulation_time = s.simulation_time)
    (hilen : i < s.cores.length) (hjlen : j < s.dag.tasks.length)
    (h2 : (core_at s i).current_task = some j)
    (hc_none : c'.current_task = none)
    (hf_core : (f (task_at s j)).core_assigned = -1)
    (hTf : TaskInv s.simulation_time (f (task_at s j)))
    (hinv : SimInv s) : SimInv S := by
  obtain ⟨hT, hC, hL⟩ := hinv
  have hassign : (task_at s j).core_assigned = Int.ofNat i := ((hC i hilen).2 j h2).2.2.1
  refine ⟨?_, ?_, ?_⟩
  · intro k hk
    rw [hS_dag, update_task_tasks_length] at hk
    rw [hS_time]
    have htk : task_at S k = (update_task s.dag j f).tasks.getD k default := by
      simp only [task_at, hS_dag]
    by_cases hkj : k = j
    · subst hkj
      rw [htk, update_task_at_self _ _ _ hjlen]
      exact hTf
    · rw [htk, update_task_at_ne _ _ (fun he => hkj he.symm)]
      exact hT k hk
  · intro i2 hi2
    rw [hS_cores, List.length_set] at hi2
    have hck : core_at S i2 = (s.cores.set i c').getD i2 default := by
      simp only [core_at, hS_cores]
    by_cases hii : i2 = i
    · subst hii
      rw [hck, getD_set_self _ _ _ _ hi2]
      refine ⟨fun _ => hc_none, ?_⟩
      intro j2 hj2
      rw [hc_none] at hj2
      exact Option.noConfusion hj2
    · rw [hck, getD_set_ne _ _ _ (fun he => hii he.symm)]
      refine ⟨(hC i2 hi2).1, ?_⟩
      intro j2 hj2
      obtain ⟨hidle2, hj2len, hass2, hcomp2⟩ := (hC i2 hi2).2 j2 hj2
      have hj2j : j2 ≠ j := by
        intro he
        subst he
        rw [hass2] at hassign
        exact hii (Int.ofNat.inj hassign)
      have htk : task_at S j2 = task_at s j2 := by
        simp only [task_at, hS_dag]
        exact update_task_at_ne _ _ (fun he => hj2j he.symm)
      rw [hS_dag, htk]
      exact ⟨hidle2, by rw [update_task_tasks_length]; exact hj2len, hass2, hcomp2⟩
  · intro k hk i2 hass2
    rw [hS_dag, update_task_tasks_length] at hk
    by_cases hkj : k = j
    · subst hkj
      have htk : task_at S k = f (task_at s k) := by
        simp only [task_at, hS_dag]
        exact update_task_at_self _ _ _ hjlen
      rw [htk, hf_core] at hass2
      exact absurd hass2.symm (by simp)
    · have htk : task_at S k = task_at s k := by
        simp only [task_at, hS_dag]
        exact update_task_at_ne _ _ (fun he => hkj he.symm)
      rw [htk] at hass2
      obtain ⟨hi2len, hcur⟩ := hL k hk i2 hass2
      have hii : i2 ≠ i := by
        intro he
        subst he
        rw [h2] at hcur
        exact hkj (Option.some.inj hcur).symm
      have hck : core_at S i2 = core_at s i2 := by
        simp only [core_at, hS_cores]
        exact getD_set_ne _ _ _ (fun he => hii he.symm)
      rw [hS_cores, List.length_set, hck]
      exact ⟨hi2len, hcur⟩

/-- A step that keeps task `j` bound to core `i` (the plain running tick)
preserves the invariant. -/
lemma inv_rebind (s S : SimState) (i j : Nat) (f : Task → Task) (c' : Core)
    (hS_dag : S.dag = update_task s.dag j f)
    (hS_cores : S.cores = s.cores.set i c')
    (hS_time : S.simulation_time = s.simulation_time)
    (hilen : i < s.cores.length) (hjlen : j < s.dag.tasks.length)
    (h2 : (core_at s i).current_task = some j)
    (hc_cur : c'.current_task = some j)
    (hc_idle : c'.is_idle = false)
    (hf_core : (f (task_at s j)).core_assigned = Int.ofNat i)
    (hf_comp : (f (task_at s j)).completed = false)
    (hTf : TaskInv s.simulation_time (f (task_at s j)))
    (hinv : SimInv s) : SimInv S := by
  obtain ⟨hT, hC, hL⟩ := hinv
  have hassign : (task_at s j).core_assigned = Int.ofNat i := ((hC i hilen).2 j h2).2.2.1
  refine ⟨?_, ?_, ?_⟩
  · intro k hk
    rw [hS_dag, update_task_tasks_length] at hk
    rw [hS_time]
    have htk : task_at S k = (update_task s.dag j f).tasks.getD k default := by
      simp only [task_at, hS_dag]
    by_cases hkj : k = j
    · subst hkj
      rw [htk, update_task_at_self _ _ _ hjlen]
      exact hTf
    · rw [htk, update_task_at_ne _ _ (fun he => hkj he.symm)]
      exact hT k hk
  · intro i2 hi2
    rw [hS_cores, List.length_set] at hi2
    have hck : core_at S i2 = (s.cores.set i c').getD i2 default := by
      simp only [core_at, hS_cores]
    by_cases hii : i2 = i
    · subst hii
      rw [hck, getD_set_self _ _ _ _ hi2]
      refine ⟨fun he => absurd (hc_idle ▸ he) (by simp), ?_⟩
      intro j2 hj2
      rw [hc_cur] at hj2
      have hj2j : j2 = j := (Option.some.inj hj2).symm
      subst hj2j
      have htk : task_at S j2 = f (task_at s j2) := by
        simp only [task_at, hS_dag]
        exact update_task_at_self _ _ _ hjlen
      rw [hS_dag, htk]
      exact ⟨hc_idle, by rw [update_task_tasks_length]; exact hjlen, hf_core, hf_comp⟩
    · rw [hck, getD_set_ne _ _ _ (fun he => hii he.symm)]
      refine ⟨(hC i2 hi2).1, ?_⟩
      intro j2 hj2
      obtain ⟨hidle2, hj2len, hass2, hcomp2⟩ := (hC i2 hi2).2 j2 hj2
      have hj2j : j2 ≠ j := by
        intro he
        subst he
        rw [hass2] at hassign
        exact hii (Int.ofNat.inj hassign)
      have htk : task_at S j2 = task_at s j2 := by
        simp only [task_at, hS_dag]
        exact update_task_at_ne _ _ (fun he => hj2j he.symm)
      rw [hS_dag, htk]
      exact ⟨hidle2, by rw [update_task_tasks_length]; exact hj2len, hass2, hcomp2⟩
  · intro k hk i2 hass2
    rw [hS_dag, update_task_tasks_length] at hk
    by_cases hkj : k = j
    · subst hkj
      have htk : task_at S k = f (task_at s k) := by
        simp only [task_at, hS_dag]
        exact update_task_at_self _ _ _ hjlen
      rw [htk, hf_core] at hass2
      have hii : i = i2 := Int.ofNat.inj hass2
      subst hii
      have hck : core_at S i = (s.cores.set i c').getD i default := by
        simp only [core_at, hS_cores]
      rw [hS_cores, List.length_set, hck, getD_set_self _ _ _ _ hilen]
      exact ⟨hilen, hc_cur⟩
    · have htk : task_at S k = task_at s k := by
        simp only [task_at, hS_dag]
        exact update_task_at_ne _ _ (fun he => hkj he.symm)
      rw [htk] at hass2
      obtain ⟨hi2len, hcur⟩ := hL k hk i2 hass2
      have hii : i2 ≠ i := by
        intro he
        subst he
        rw [h2] at hcur
        exact hkj (Option.some.inj hcur).symm
      have hck : core_at S i2 = core_at s i2 := by
        simp only [core_at, hS_cores]
        exact getD_set_ne _ _ _ (fun he => hii he.symm)
      rw [hS_cores, List.length_set, hck]
      exact ⟨hi2len, hcur⟩

/-- A step that binds a previously unassigned task `j` to a previously idle
core `i` (the assignment phase) preserves the invariant. -/
lemma inv_bind (s S : SimState) (i j : Nat) (f : Task → Task) (c' : Core)
    (hS_dag : S.dag = update_task s.dag j f)
    (hS_cores : S.cores = s.cores.set i c')
    (hS_time : S.simulation_time = s.simulation_time)
    (hilen : i < s.cores.length) (hjlen : j < s.dag.tasks.length)
    (hidle : (core_at s i).is_idle = true)
    (hold_core : (task_at s j).core_assigned = -1)
    (hc_cur : c'.current_task = some j)
    (hc_idle : c'.is_idle = false)
    (hf_core : (f (task_at s j)).core_assigned = Int.ofNat i)
    (hf_comp : (f (task_at s j)).completed = false)
    (hTf : TaskInv s.simulation_time (f (task_at s j)))
    (hinv : SimInv s) : SimInv S := by
  obtain ⟨hT, hC, hL⟩ := hinv
  refine ⟨?_, ?_, ?_⟩
  · intro k hk
    rw [hS_dag, update_task_tasks_length] at hk
    rw [hS_time]
    have htk : task_at S k = (update_task s.dag j f).tasks.getD k default := by
      simp only [task_at, hS_dag]
    by_cases hkj : k = j
    · subst hkj
      rw [htk, update_task_at_self _ _ _ hjlen]
      exact hTf
    · rw [htk, update_task_at_ne _ _ (fun he => hkj he.symm)]
      exact hT k hk
  · intro i2 hi2
    rw [hS_cores, List.length_set] at hi2
    have hck : core_at S i2 = (s.cores.set i c').getD i2 default := by
      simp only [core_at, hS_cores]
    by_cases hii : i2 = i
    · subst hii
      rw [hck, getD_set_self _ _ _ _ hi2]
      refine ⟨fun he => absurd (hc_idle ▸ he) (by simp), ?_⟩
      intro j2 hj2
      rw [hc_cur] at hj2
      have hj2j : j2 = j := (Option.some.inj hj2).symm
      subst hj2j
      have htk : task_at S j2 = f (task_at s j2) := by
        simp only [task_at, hS_dag]
        exact update_task_at_self _ _ _ hjlen
      rw [hS_dag, htk]
      exact ⟨hc_idle, by rw [update_task_tasks_length]; exact hjlen, hf_core, hf_comp⟩
    · rw [hck, getD_set_ne _ _ _ (fun he => hii he.symm)]
      refine ⟨(hC i2 hi2).1, ?_⟩
      intro j2 hj2
      obtain ⟨hidle2, hj2len, hass2, hcomp2⟩ := (hC i2 hi2).2 j2 hj2
      have hj2j : j2 ≠ j := by
        intro he
        subst he
        rw [hass2] at hold_core
        exact absurd hold_core.symm (by simp)
      have htk : task_at S j2 = task_at s j2 := by
        simp only [task_at, hS_dag]
        exact update_task_at_ne _ _ (fun he => hj2j he.symm)
      rw [hS_dag, htk]
      exact ⟨hidle2, by rw [update_task_tasks_length]; exact hj2len, hass2, hcomp2⟩
  · intro k hk i2 hass2
    rw [hS_dag, update_task_tasks_length] at hk
    by_cases hkj : k = j
    · subst hkj
      have htk : task_at S k = f (task_at s k) := by
        simp only [task_at, hS_dag]
        exact update_task_at_self _ _ _ hjlen
      rw [htk, hf_core] at hass2
      have hii : i = i2 := Int.ofNat.inj hass2
      subst hii
      have hck : core_at S i = (s.cores.set i c').getD i default := by
        simp only [core_at, hS_cores]
      rw [hS_cores, List.length_set, hck, getD_set_self _ _ _ _ hilen]
      exact ⟨hilen, hc_cur⟩
    · have htk : task_at S k = task_at s k := by
        simp only [task_at, hS_dag]
        exact update_task_at_ne _ _ (fun he => hkj he.symm)
      rw [htk] at hass2
      obtain ⟨hi2len, hcur⟩ := hL k hk i2 hass2
      have hii : i2 ≠ i := by
        intro he
        subst he
        rw [(hC i2 hilen).1 hidle] at hcur
        exact Option.noConfusion hcur
      have hck : core_at S i2 = core_at s i2 := by
        simp only [core_at, hS_cores]
        exact getD_set_ne _ _ _ (fun he => hii he.symm)
      rw [hS_cores, List.length_set, hck]
      exact ⟨hi2len, hcur⟩

end HybridDag

namespace HybridDag

/-- One `advance_core` step preserves the invariant. -/
lemma advance_core_inv (s : SimState) (i : Nat) (hinv : SimInv s) :
    SimInv (advance_core s i) := by
  obtain ⟨hT, hC, hL⟩ := hinv
  simp only [advance_core]
  by_cases h1 : (core_at s i).is_idle
  · rw [if_pos h1]; exact ⟨hT, hC, hL⟩
  · rw [if_neg h1]
    cases h2 : (core_at s i).current_task with
    | none => exact ⟨hT, hC, hL⟩
    | some j =>
      dsimp only
      by_cases hilen : i < s.cores.length
      case neg =>
        exfalso
        have hd : core_at s i = default := getD_of_ge _ _ _ hilen
        rw [hd] at h2
        exact Option.noConfusion h2
      case pos =>
        obtain ⟨_, hjlen, hassign, hncomp⟩ := (hC i hilen).2 j h2
        have htj := hT j hjlen
        obtain ⟨htc, htu, hta, hts⟩ := htj
        have hrem : 1 ≤ (task_at s j).remaining_time := htu hncomp
        have hstart : (task_at s j).start_time ≠ -1 :=
          (hta (by rw [hassign]; simp)).2
        have hst0 := hts hstart
        split_ifs with h3 h4
        · -- completion
          refine inv_unbind s _ i j
            (complete_update s.simulation_time ((task_at s j).remaining_time - 1)) _
            rfl rfl rfl hilen hjlen h2 rfl rfl ?_ ⟨hT, hC, hL⟩
          simp only [complete_update, TaskInv]
          refine ⟨fun _ => ⟨by omega, hst0.1, hst0.2⟩, ?_, ?_, ?_⟩
          · intro hcf; exact Bool.noConfusion hcf
          · intro hne; exact absurd rfl hne
          · intro _; exact hst0
        · -- quantum expiry: preemption
          refine inv_unbind s _ i j
            (preempt_update ((task_at s j).remaining_time - 1)) _
            rfl rfl rfl hilen hjlen h2 rfl rfl ?_ ⟨hT, hC, hL⟩
          simp only [preempt_update, TaskInv]
          refine ⟨?_, fun _ => by omega, ?_, ?_⟩
          · intro hcf; rw [hncomp] at hcf; exact Bool.noConfusion hcf
          · intro hne; exact absurd rfl hne
          · intro _; exact hst0
        · -- keep running
          refine inv_rebind s _ i j
            (running_update ((task_at s j).remaining_time - 1)) _
            rfl rfl rfl hilen hjlen h2 rfl (by simpa using h1) hassign hncomp
            ?_ ⟨hT, hC, hL⟩
          simp only [running_update, TaskInv]
          refine ⟨?_, fun _ => by omega, fun _ => ⟨hncomp, hstart⟩, fun _ => hst0⟩
          intro hcf; rw [hncomp] at hcf; exact Bool.noConfusion hcf

/-- The whole first per-core loop preserves the invariant. -/
lemma advance_all_cores_inv (s : SimState) (hinv : SimInv s) :
    SimInv (advance_all_cores s) := by
  unfold advance_all_cores
  generalize List.range s.cores.length = l
  induction l generalizing s with
  | nil => exact hinv
  | cons a l ih => exact ih (advance_core s a) (advance_core_inv s a hinv)

/-- One `assign_core` step preserves the invariant. -/
lemma assign_core_inv (q : Int) (s : SimState) (i : Nat) (hinv : SimInv s) :
    SimInv (assign_core q s i) := by
  obtain ⟨hT, hC, hL⟩ := hinv
  simp only [assign_core]
  by_cases h1 : (core_at s i).is_idle
  · rw [if_pos h1]
    by_cases hm1 : find_highest_priority_ready_task s.dag = -1
    · rw [if_pos hm1]; exact ⟨hT, hC, hL⟩
    · rw [if_neg hm1]
      rcases find_spec s.dag with ⟨he, _⟩ | ⟨j, he, hjlen, hcand, _⟩
      · exact absurd he hm1
      have htn : (find_highest_priority_ready_task s.dag).toNat = j := by rw [he]; simp
      rw [htn]
      have hilen : i < s.cores.length := by
        by_contra hge
        have hd : core_at s i = default := getD_of_ge _ _ _ hge
        rw [hd] at h1
        exact Bool.noConfusion h1
      obtain ⟨hunass0, hncomp0⟩ := candidate_facts s.dag j hcand
      have hunass : (task_at s j).core_assigned = -1 := hunass0
      have hncomp : (task_at s j).completed = false := hncomp0
      have htj := hT j hjlen
      obtain ⟨htc, htu, hta, hts⟩ := htj
      refine inv_bind s _ i j
        (bind_update i s.simulation_time) _
        rfl rfl rfl hilen hjlen h1 hunass rfl rfl rfl hncomp
        ?_ ⟨hT, hC, hL⟩
      simp only [bind_update, TaskInv]
      refine ⟨?_, fun _ => htu hncomp, fun _ => ⟨hncomp, ?_⟩, ?_⟩
      · intro hcf; rw [hncomp] at hcf; exact Bool.noConfusion hcf
      · by_cases hsv : (task_at s j).start_time = -1
        · rw [if_pos hsv]; simp
        · rw [if_neg hsv]; exact hsv
      · intro hne
        by_cases hsv : (task_at s j).start_time = -1
        · rw [if_pos hsv]
          exact ⟨Int.ofNat_nonneg _, le_refl _⟩
        · rw [if_neg hsv]
          exact hts hsv
  · rw [if_neg h1]; exact ⟨hT, hC, hL⟩

/-- The whole second per-core loop preserves the invariant. -/
lemma assign_all_cores_inv (q : Int) (s : SimState) (hinv : SimInv s) :
    SimInv (assign_all_cores q s) := by
  unfold assign_all_cores
  generalize List.range s.cores.length = l
  induction l generalizing s with
  | nil => exact hinv
  | cons a l ih => exact ih (assign_core q s a) (assign_core_inv q s a hinv)

/-- Advancing the clock preserves the invariant. -/
lemma clock_bump_inv (s : SimState) (hinv : SimInv s) :
    SimInv { s with simulation_time := s.simulation_time + 1 } := by
  obtain ⟨hT, hC, hL⟩ := hinv
  refine ⟨?_, hC, hL⟩
  intro j hj
  obtain ⟨htc, htu, hta, hts⟩ := hT j hj
  refine ⟨htc, htu, hta, ?_⟩
  intro hne
  refine ⟨(hts hne).1, le_trans (hts hne).2 ?_⟩
  simp only [Int.ofNat_eq_natCast]
  omega

/-- Idle-time accounting preserves the invariant. -/
lemma count_idle_time_inv (s : SimState) (hinv : SimInv s) :
    SimInv (count_idle_time s) := by
  obtain ⟨hT, hC, hL⟩ := hinv
  have hfields : ∀ i, i < s.cores.length →
      (core_at (count_idle_time s) i).is_idle = (core_at s i).is_idle
      ∧ (core_at (count_idle_time s) i).current_task = (core_at s i).current_task := by
    intro i hi
    simp only [count_idle_time, core_at]
    rw [getD_map _ _ _ _ default hi]
    by_cases hid : (s.cores.getD i default).is_idle
    · rw [if_pos hid]; exact ⟨rfl, rfl⟩
    · rw [if_neg hid]; exact ⟨rfl, rfl⟩
  have hlen : (count_idle_time s).cores.length = s.cores.length := by
    simp [count_idle_time]
  refine ⟨hT, ?_, ?_⟩
  · intro i hi
    rw [hlen] at hi
    obtain ⟨hidf, hcurf⟩ := hfields i hi
    refine ⟨?_, ?_⟩
    · intro hidle
      rw [hcurf]
      exact (hC i hi).1 (by rw [← hidf]; exact hidle)
    · intro j hj
      rw [hcurf] at hj
      obtain ⟨ha, hb, hc2, hd2⟩ := (hC i hi).2 j hj
      exact ⟨by rw [hidf]; exact ha, hb, hc2, hd2⟩
  · intro j hj i2 hass
    obtain ⟨ha, hb⟩ := hL j hj i2 hass
    rw [hlen]
    exact ⟨ha, by rw [(hfields i2 ha).2]; exact hb⟩

/-- One full loop iteration preserves the invariant. -/
lemma scheduler_tick_inv (q : Int) (s : SimState) (hinv : SimInv s) :
    SimInv (scheduler_tick q s) :=
  count_idle_time_inv _
    (clock_bump_inv _ (assign_all_cores_inv q _ (advance_all_cores_inv s hinv)))

/-- The main loop preserves the invariant for any fuel. -/
lemma run_loop_inv (q : Int) :
    ∀ (fuel : Nat) (s : SimState), SimInv s → SimInv (run_loop q fuel s) := by
  intro fuel
  induction fuel with
  | zero => intro s hinv; exact hinv
  | succ f ihf =>
    intro s hinv
    rw [run_loop]
    by_cases hc : s.completed_tasks < s.dag.tasks.length
    · rw [if_pos hc]
      by_cases hbr : 10000 < (scheduler_tick q s).simulation_time
      · rw [if_pos hbr]; exact scheduler_tick_inv q s hinv
      · rw [if_neg hbr]; exact ihf _ (scheduler_tick_inv q s hinv)
    · rw [if_neg hc]; exact hinv

/-- The invariant holds at the top of the loop, provided every task has a
positive duration. -/
lemma init_state_inv (dag : DAG) (n : Nat)
    (hdur : ∀ t ∈ dag.tasks, 1 ≤ t.duration) : SimInv (init_state dag n) := by
  have htask : ∀ j, j < dag.tasks.length →
      task_at (init_state dag n) j = reset_update (dag.tasks.getD j default) := by
    intro j hjlen
    simp only [init_state, reset_dag_execution, task_at]
    exact getD_map _ _ _ _ default hjlen
  have hlen : (init_state dag n).dag.tasks.length = dag.tasks.length := by
    simp [init_state, reset_dag_execution]
  have hclen : (init_state dag n).cores.length = n := by
    simp [init_state, init_cores]
  refine ⟨?_, ?_, ?_⟩
  · intro j hj
    rw [hlen] at hj
    rw [htask j hj]
    simp only [reset_update, TaskInv]
    refine ⟨?_, ?_, ?_, ?_⟩
    · intro hcf; exact Bool.noConfusion hcf
    · intro _; exact hdur _ (getD_mem _ _ _ hj)
    · intro hne; exact absurd rfl hne
    · intro hne; exact absurd rfl hne
  · intro i hi
    rw [hclen] at hi
    have hck : core_at (init_state dag n) i = fresh_core i := by
      simp only [init_state, init_cores, core_at]
      rw [getD_map _ _ _ _ 0 (by simpa using hi), getD_range _ _ hi]
    rw [hck]
    refine ⟨fun _ => rfl, ?_⟩
    intro j hj
    exact Option.noConfusion hj
  · intro j hj i2 hass
    rw [hlen] at hj
    rw [htask j hj] at hass
    simp only [reset_update] at hass
    exact absurd hass.symm (by simp)

end HybridDag

namespace HybridDag

/-! ## Claim theorems -/

/-- Claim C1, counterexample: for durations `[4, 2, 3]`, one core and
quantum 2, the schedule claimed by the specification (task 0 preempted at
tick 2 and task 1 running `[2,4)`, task 0 resuming `[4,6)`, zero final idle
time) does not hold of `simulate_hybrid_scheduler`. -/
theorem c1_counterexample :
    ¬ ((task_at (simulate_hybrid_scheduler c1_dag 1 2) 0).start_time = 0
       ∧ (task_at (simulate_hybrid_scheduler c1_dag 1 2) 0).finish_time = 6
       ∧ (task_at (simulate_hybrid_scheduler c1_dag 1 2) 1).start_time = 2
       ∧ (task_at (simulate_hybrid_scheduler c1_dag 1 2) 1).finish_time = 4
       ∧ (task_at (simulate_hybrid_scheduler c1_dag 1 2) 2).start_time = 6
       ∧ (task_at (simulate_hybrid_scheduler c1_dag 1 2) 2).finish_time = 9
       ∧ (core_at (simulate_hybrid_scheduler c1_dag 1 2) 0).total_idle_time = 0) := by
  decide

/-- Claim C1, amended: with durations `[4, 2, 3]`, no dependencies, one
core and quantum 2, task 0 is quantum-preempted at tick 2 with 2 remaining
but is immediately reselected (after 3 iterations it is again bound to core
0 with a fresh quantum), so it runs `[0,4)` and finishes at 4; task 1 runs
`[4,6)` finishing at 6; task 2 runs `[6,9)` finishing at 9; the core's
idle-time counter is 1 when the loop halts (the tick after the last
completion) and the clock reads 10. -/
theorem c1_schedule :
    ((task_at (run_loop 2 3 (init_state c1_dag 1)) 0).core_assigned = 0
     ∧ (task_at (run_loop 2 3 (init_state c1_dag 1)) 0).remaining_time = 2
     ∧ (core_at (run_loop 2 3 (init_state c1_dag 1)) 0).time_slice_remaining = 2
     ∧ (run_loop 2 3 (init_state c1_dag 1)).simulation_time = 3)
    ∧ ((task_at (simulate_hybrid_scheduler c1_dag 1 2) 0).start_time = 0
       ∧ (task_at (simulate_hybrid_scheduler c1_dag 1 2) 0).finish_time = 4
       ∧ (task_at (simulate_hybrid_scheduler c1_dag 1 2) 1).start_time = 4
       ∧ (task_at (simulate_hybrid_scheduler c1_dag 1 2) 1).finish_time = 6
       ∧ (task_at (simulate_hybrid_scheduler c1_dag 1 2) 2).start_time = 6
       ∧ (task_at (simulate_hybrid_scheduler c1_dag 1 2) 2).finish_time = 9
       ∧ (core_at (simulate_hybrid_scheduler c1_dag 1 2) 0).total_idle_time = 1
       ∧ (simulate_hybrid_scheduler c1_dag 1 2).simulation_time = 10) := by
  constructor
  · decide
  · decide

/-- Claim C2: `find_highest_priority_ready_task` returns -1 exactly when no
ready unassigned task exists; otherwise it returns a ready unassigned task
whose priority is maximal among all ready unassigned tasks, with priority
ties broken in favour of a smaller period; and a task is ready iff it is
not completed and every id in its dependency list refers to a completed
task. -/
theorem c2_select_spec (dag : DAG) :
    (find_highest_priority_ready_task dag = -1 ↔
      ∀ i, i < dag.tasks.length → ¬ is_candidate dag i = true)
    ∧ (∀ s : Nat, find_highest_priority_ready_task dag = Int.ofNat s →
        is_candidate dag s = true ∧ s < dag.tasks.length ∧
        ∀ i, i < dag.tasks.length → is_candidate dag i = true →
          (dag.tasks.getD i default).priority ≤ (dag.tasks.getD s default).priority
          ∧ ((dag.tasks.getD i default).priority = (dag.tasks.getD s default).priority →
             (dag.tasks.getD s default).period ≤ (dag.tasks.getD i default).period))
    ∧ (∀ i, is_task_ready dag i = true ↔
        ((dag.tasks.getD i default).completed = false
         ∧ ∀ d ∈ (dag.tasks.getD i default).dependencies,
             (dag.tasks.getD d default).completed = true)) := by
  refine ⟨⟨?_, ?_⟩, ?_, ?_⟩
  · intro hm i hi
    rcases find_spec dag with ⟨_, hnone⟩ | ⟨s, he, _, _, _⟩
    · exact hnone i hi
    · rw [hm] at he; exact absurd he (by simp)
  · intro hnone
    rcases find_spec dag with ⟨he, _⟩ | ⟨s, _, hslen, hscand, _⟩
    · exact he
    · exact absurd hscand (hnone s hslen)
  · intro s hfind
    rcases find_spec dag with ⟨he, _⟩ | ⟨s1, he, hs1len, hs1cand, hall⟩
    · rw [he] at hfind; exact absurd hfind.symm (by simp)
    · have hs : s1 = s := Int.ofNat.inj (by rw [← he, hfind])
      subst hs
      refine ⟨hs1cand, hs1len, ?_⟩
      intro i hi hci
      have hb := hall i hi hci
      exact ⟨beats_priority_le dag hb, fun hpr => by simp only [beats] at hb; omega⟩
  · intro i
    simp only [is_task_ready]
    by_cases hc : (dag.tasks.getD i default).completed
    · rw [if_pos hc]
      constructor
      · intro hf; exact absurd hf (by simp)
      · intro h; rw [h.1] at hc; exact Bool.noConfusion hc
    · rw [if_neg hc]
      simp only [List.all_eq_true]
      constructor
      · intro hall
        refine ⟨?_, hall⟩
        cases hcv : (dag.tasks.getD i default).completed
        · rfl
        · exact absurd hcv hc
      · intro h
        exact h.2

/-- Claim C2, witness at the three-task fixture: the scan selects task 0,
which is a candidate and optimal in the claimed order. -/
theorem c2_witness :
    is_candidate c1_dag 0 = true ∧ 0 < c1_dag.tasks.length ∧
    ∀ i, i < c1_dag.tasks.length → is_candidate c1_dag i = true →
      (c1_dag.tasks.getD i default).priority ≤ (c1_dag.tasks.getD 0 default).priority
      ∧ ((c1_dag.tasks.getD i default).priority = (c1_dag.tasks.getD 0 default).priority →
         (c1_dag.tasks.getD 0 default).period ≤ (c1_dag.tasks.getD i default).period) :=
  (c2_select_spec c1_dag).2.1 0 (by decide)

/-- Claim C3: in the per-tick advance step, completion is tested before
quantum expiry, so a running task whose remaining time and quantum counter
both reach 0 on this tick is marked completed, its finish time is recorded
as the current clock, and the completion counter is bumped, rather than the
task being preempted back to the unassigned pool. -/
theorem c3_completion_checked_first (s : SimState) (i j : Nat)
    (hjlen : j < s.dag.tasks.length)
    (hbusy : (core_at s i).is_idle = false)
    (hcur : (core_at s i).current_task = some j)
    (hrem : (task_at s j).remaining_time = 1)
    (_hslice : (core_at s i).time_slice_remaining = 1) :
    (task_at (advance_core s i) j).completed = true
    ∧ (task_at (advance_core s i) j).remaining_time = 0
    ∧ (task_at (advance_core s i) j).finish_time = Int.ofNat s.simulation_time
    ∧ (advance_core s i).completed_tasks = s.completed_tasks + 1 := by
  have hrem2 : (s.dag.tasks.getD j default).remaining_time = 1 := hrem
  simp only [advance_core]
  rw [if_neg (by rw [hbusy]; simp), hcur]
  dsimp only
  rw [if_pos (by rw [hrem]; norm_num)]
  simp only [task_at, update_task_at_self _ _ _ hjlen, complete_update]
  refine ⟨trivial, by omega, trivial, trivial⟩

/-- Claim C3, witness: after 6 iterations of the three-task run, core 0
runs task 1 with one tick of work and one tick of quantum left; the next
advance completes it. -/
theorem c3_witness :
    (task_at (advance_core (run_loop 2 6 (init_state c1_dag 1)) 0) 1).completed = true
    ∧ (task_at (advance_core (run_loop 2 6 (init_state c1_dag 1)) 0) 1).remaining_time = 0
    ∧ (task_at (advance_core (run_loop 2 6 (init_state c1_dag 1)) 0) 1).finish_time
       = Int.ofNat (run_loop 2 6 (init_state c1_dag 1)).simulation_time
    ∧ (advance_core (run_loop 2 6 (init_state c1_dag 1)) 0).completed_tasks
       = (run_loop 2 6 (init_state c1_dag 1)).completed_tasks + 1 :=
  c3_completion_checked_first (run_loop 2 6 (init_state c1_dag 1)) 0 1
    (by decide) (by decide) (by decide) (by decide) (by decide)

/-- Claim C4: after `apply_rate_monotonic_scheduling`, every task's
priority lies in `[1, 10]`; a task with period 0 receives the minimum
priority 1; and for two tasks with positive periods `p1 < p2` the priority
assigned for `p1` is at least the priority assigned for `p2`. -/
theorem c4_rms_priority (dag : DAG) :
    (∀ t, t ∈ (apply_rate_monotonic_scheduling dag).tasks →
        (1 ≤ t.priority ∧ t.priority ≤ 10) ∧ (t.period = 0 → t.priority = 1))
    ∧ (∀ t u, t ∈ (apply_rate_monotonic_scheduling dag).tasks →
        u ∈ (apply_rate_monotonic_scheduling dag).tasks →
        0 < t.period → t.period < u.period → u.priority ≤ t.priority) := by
  constructor
  · intro t ht
    simp only [apply_rate_monotonic_scheduling, List.mem_map] at ht
    obtain ⟨t0, _, rfl⟩ := ht
    refine ⟨rms_priority_bounds t0.period, ?_⟩
    intro hp
    show rms_priority t0.period = 1
    rw [show t0.period = 0 from hp]
    exact rms_priority_zero
  · intro t u ht hu hpos hlt
    simp only [apply_rate_monotonic_scheduling, List.mem_map] at ht hu
    obtain ⟨t0, _, rfl⟩ := ht
    obtain ⟨u0, _, rfl⟩ := hu
    exact rms_priority_mono hpos hlt

/-- Claim C4, witness: on the periods-100-and-500 fixture, task 0's
priority is in bounds and task 1's priority does not exceed task 0's. -/
theorem c4_witness :
    (1 ≤ ((apply_rate_monotonic_scheduling c4_base_dag).tasks.getD 0 default).priority
     ∧ ((apply_rate_monotonic_scheduling c4_base_dag).tasks.getD 0 default).priority ≤ 10)
    ∧ ((apply_rate_monotonic_scheduling c4_base_dag).tasks.getD 1 default).priority
       ≤ ((apply_rate_monotonic_scheduling c4_base_dag).tasks.getD 0 default).priority :=
  ⟨((c4_rms_priority c4_base_dag).1 _ (getD_mem _ 0 default (by decide))).1,
   (c4_rms_priority c4_base_dag).2 _ _ (getD_mem _ 0 default (by decide))
     (getD_mem _ 1 default (by decide)) (by decide) (by decide)⟩

/-- Claim C5: on the pure dependency 2-cycle the loop never completes a
task — after any number of iterations the state is the stuck state with
clock `min fuel 10001` — and the run exits through the safety-bound branch:
the final state of `simulate_hybrid_scheduler` has 0 of 2 tasks completed
and clock 10001, which exceeds the bound 10000. -/
theorem c5_cycle_never_converges (q : Int) :
    (∀ k, run_loop q k (init_state two_cycle_dag 1) = stuck_state (min k 10001))
    ∧ (simulate_hybrid_scheduler two_cycle_dag 1 q).completed_tasks = 0
    ∧ (simulate_hybrid_scheduler two_cycle_dag 1 q).dag.tasks.length = 2
    ∧ (simulate_hybrid_scheduler two_cycle_dag 1 q).simulation_time = 10001
    ∧ 10000 < (simulate_hybrid_scheduler two_cycle_dag 1 q).simulation_time := by
  have hmain : ∀ k, run_loop q k (init_state two_cycle_dag 1) = stuck_state (min k 10001) := by
    intro k
    rw [init_two_cycle]
    have h := run_loop_stuck q k 0 (by omega)
    simpa using h
  have hsim : simulate_hybrid_scheduler two_cycle_dag 1 q = stuck_state (min 10002 10001) :=
    hmain 10002
  refine ⟨hmain, ?_, ?_, ?_, ?_⟩
  · rw [hsim]; rfl
  · rw [hsim]; rfl
  · rw [hsim]
    show min 10002 10001 = 10001
    norm_num
  · rw [hsim]
    show (10000 : Nat) < min 10002 10001
    norm_num

/-- Claim C6: the simulation is deterministic and unaffected by the debug
flag and the pacing delay: the scheduling state produced by
`simulate_hybrid_scheduler_full` (start/finish times, idle counters, clock)
is the same for any two choices of debug flag and delay, and coincides with
the plain `simulate_hybrid_scheduler`. -/
theorem c6_deterministic (dag : DAG) (n : Nat) (q : Int)
    (d1 d2 : Bool) (del1 del2 : Int) :
    (simulate_hybrid_scheduler_full dag n q d1 del1).1
      = (simulate_hybrid_scheduler_full dag n q d2 del2).1
    ∧ (simulate_hybrid_scheduler_full dag n q d1 del1).1
      = simulate_hybrid_scheduler dag n q := by
  rw [simulate_full_fst, simulate_full_fst]
  exact ⟨rfl, rfl⟩

/-- Claim C7, counterexample: a task entered with duration 0 is marked
completed with remaining time -1, not 0: it is uncompleted after 1
iteration, and completed with remaining time -1 after the iteration that
marks it (and in the final state). -/
theorem c7_counterexample :
    (task_at (run_loop 50 1 (init_state zero_duration_dag 1)) 0).completed = false
    ∧ (task_at (run_loop 50 2 (init_state zero_duration_dag 1)) 0).completed = true
    ∧ (task_at (run_loop 50 2 (init_state zero_duration_dag 1)) 0).remaining_time = -1
    ∧ (task_at (simulate_hybrid_scheduler zero_duration_dag 1 50) 0).completed = true
    ∧ (task_at (simulate_hybrid_scheduler zero_duration_dag 1 50) 0).remaining_time = -1 := by
  decide

/-- Claim C7, amended: in every run whose task durations are all at least
1, at every moment of the loop (after any number `k` of iterations), every
completed task has remaining time exactly 0, a finish time no earlier than
its start time, and a nonnegative start time. -/
theorem c7_completed_invariant (dag : DAG) (n : Nat) (q : Int) (k : Nat)
    (hdur : ∀ t ∈ dag.tasks, 1 ≤ t.duration) :
    ∀ j, j < (run_loop q k (init_state dag n)).dag.tasks.length →
      (task_at (run_loop q k (init_state dag n)) j).completed = true →
      (task_at (run_loop q k (init_state dag n)) j).remaining_time = 0
      ∧ (task_at (run_loop q k (init_state dag n)) j).start_time
         ≤ (task_at (run_loop q k (init_state dag n)) j).finish_time
      ∧ 0 ≤ (task_at (run_loop q k (init_state dag n)) j).start_time := by
  intro j hj hcomp
  obtain ⟨hT, _, _⟩ := run_loop_inv q k (init_state dag n) (init_state_inv dag n hdur)
  obtain ⟨htc, _, _, _⟩ := hT j hj
  obtain ⟨h1, h2, h3⟩ := htc hcomp
  exact ⟨h1, h3, h2⟩

/-- Claim C7, witness: in the finished three-task run, task 0 is completed
with remaining time 0 and start no later than finish. -/
theorem c7_witness :
    (task_at (run_loop 2 10002 (init_state c1_dag 1)) 0).remaining_time = 0
    ∧ (task_at (run_loop 2 10002 (init_state c1_dag 1)) 0).start_time
       ≤ (task_at (run_loop 2 10002 (init_state c1_dag 1)) 0).finish_time
    ∧ 0 ≤ (task_at (run_loop 2 10002 (init_state c1_dag 1)) 0).start_time :=
  c7_completed_invariant c1_dag 1 2 10002 (by decide) 0 (by decide) (by decide)

/-- Claim C8: a dependency declaration whose task id is out of range, whose
depends-on id is out of range, which is a self-dependency, or which
duplicates an existing edge leaves the DAG (dependency lists and adjacency
matrix) unchanged; and dropping such a rejected declaration from the middle
of a declaration sequence does not change the result, so construction
continues and later declarations still apply.  (The task id -1 is the
documented stop sentinel of the input loop, not a declaration.) -/
theorem c8_dependency_rejection :
    (∀ (dag : DAG) (task depends_on : Int),
      (task < 0 ∨ Int.ofNat dag.tasks.length ≤ task
        ∨ depends_on < 0 ∨ Int.ofNat dag.tasks.length ≤ depends_on
        ∨ task = depends_on
        ∨ (dag.tasks.getD task.toNat default).dependencies.contains depends_on.toNat = true) →
      add_dependency dag task depends_on = dag)
    ∧ (∀ (dag : DAG) (pre post : List (Int × Int)) (task depends_on : Int),
        task ≠ -1 →
        (task < 0 ∨ Int.ofNat (process_dependencies dag pre).tasks.length ≤ task
          ∨ depends_on < 0 ∨ Int.ofNat (process_dependencies dag pre).tasks.length ≤ depends_on
          ∨ task = depends_on
          ∨ ((process_dependencies dag pre).tasks.getD task.toNat default).dependencies.contains
              depends_on.toNat = true) →
        process_dependencies dag (pre ++ (task, depends_on) :: post)
          = process_dependencies dag (pre ++ post)) := by
  constructor
  · exact add_dependency_rejected
  · intro dag pre post task depends_on hne hrej
    exact process_dependencies_skip pre dag task depends_on post hne
      (add_dependency_rejected _ _ _ hrej)

/-- Claim C8, witness: a self-dependency is rejected without modifying the
2-cycle DAG, and re-declaring its existing edge (0 depends on 1) in the
middle of a sequence is dropped without affecting the rest. -/
theorem c8_witness :
    add_dependency two_cycle_dag 0 0 = two_cycle_dag
    ∧ process_dependencies two_cycle_dag ([] ++ (0, 1) :: [])
      = process_dependencies two_cycle_dag ([] ++ []) :=
  ⟨c8_dependency_rejection.1 two_cycle_dag 0 0 (by decide),
   c8_dependency_rejection.2 two_cycle_dag [] [] 0 1 (by decide) (by decide)⟩

/-- Claim C9: when the scan's result ties a candidate on both priority and
period, the result has the smaller (or equal) id — the ascending-id scan
keeps the first of a full tie; and concretely, in the three-equal-task run,
task 0 is quantum-preempted in phase 1 of iteration 3, is immediately a
ready unassigned candidate again, and the full tick rebinds core 0 to task
0 ahead of the equal-priority equal-period tasks 1 and 2. -/
theorem c9_full_tie_smallest_id :
    (∀ (dag : DAG) (s i : Nat), i < dag.tasks.length →
      find_highest_priority_ready_task dag = Int.ofNat s →
      is_candidate dag i = true →
      (dag.tasks.getD i default).priority = (dag.tasks.getD s default).priority →
      (dag.tasks.getD i default).period = (dag.tasks.getD s default).period →
      s ≤ i)
    ∧ (is_candidate (advance_all_cores (run_loop 2 2 (init_state eq_dag 1))).dag 0 = true
       ∧ (task_at (advance_all_cores (run_loop 2 2 (init_state eq_dag 1))) 0).completed = false
       ∧ (task_at (advance_all_cores (run_loop 2 2 (init_state eq_dag 1))) 0).core_assigned = -1
       ∧ is_candidate (advance_all_cores (run_loop 2 2 (init_state eq_dag 1))).dag 1 = true
       ∧ is_candidate (advance_all_cores (run_loop 2 2 (init_state eq_dag 1))).dag 2 = true
       ∧ (core_at (scheduler_tick 2 (run_loop 2 2 (init_state eq_dag 1))) 0).current_task = some 0
       ∧ (task_at (scheduler_tick 2 (run_loop 2 2 (init_state eq_dag 1))) 0).core_assigned = 0) := by
  constructor
  · intro dag s i hilen hfind hcand hpr hper
    rcases find_spec dag with ⟨he, _⟩ | ⟨s1, he, _, _, hall⟩
    · rw [he] at hfind; exact absurd hfind.symm (by simp)
    · have hs : s1 = s := Int.ofNat.inj (by rw [← he, hfind])
      subst hs
      have hb := hall i hilen hcand
      simp only [beats] at hb
      omega
  · decide

/-- Claim C9, witness: in the post-preemption state of the three-equal-task
run, the scan returns task 0 and task 1 is a full-tie candidate, so the
theorem yields the id ordering. -/
theorem c9_witness :
    is_candidate (advance_all_cores (run_loop 2 2 (init_state eq_dag 1))).dag 1 = true
    ∧ find_highest_priority_ready_task (advance_all_cores (run_loop 2 2 (init_state eq_dag 1))).dag
      = Int.ofNat 0
    ∧ (0 : Nat) ≤ 1 :=
  ⟨by decide, by decide,
   c9_full_tie_smallest_id.1 (advance_all_cores (run_loop 2 2 (init_state eq_dag 1))).dag 0 1
     (by decide) (by decide) (by decide) (by decide) (by decide)⟩

/-- Claim C10: if a ready unassigned task `a` has period 0, then whatever
task the scan selects, if it has the same priority as `a` it cannot have a
positive period, because the tie-break compares raw periods and 0 is
minimal; on the fixture, both the aperiodic task (period 0) and the
period-2000 task receive priority 1 from `apply_rate_monotonic_scheduling`,
and the scan selects the aperiodic task 0. -/
theorem c10_aperiodic_wins_tie :
    (∀ (dag : DAG) (a t : Nat), a < dag.tasks.length →
      is_candidate dag a = true →
      (dag.tasks.getD a default).period = 0 →
      find_highest_priority_ready_task dag = Int.ofNat t →
      (dag.tasks.getD t default).priority = (dag.tasks.getD a default).priority →
      ¬ 0 < (dag.tasks.getD t default).period)
    ∧ rms_priority 0 = 1 ∧ rms_priority 2000 = 1
    ∧ (tie_dag.tasks.getD 0 default).period = 0
    ∧ (tie_dag.tasks.getD 0 default).priority = 1
    ∧ 0 < (tie_dag.tasks.getD 1 default).period
    ∧ (tie_dag.tasks.getD 1 default).priority = 1
    ∧ find_highest_priority_ready_task tie_dag = Int.ofNat 0 := by
  constructor
  · intro dag a t halen hcand hper hfind hpr
    rcases find_spec dag with ⟨he, _⟩ | ⟨s1, he, _, _, hall⟩
    · rw [he] at hfind; exact absurd hfind.symm (by simp)
    · have hs : s1 = t := Int.ofNat.inj (by rw [← he, hfind])
      subst hs
      have hb := hall a halen hcand
      simp only [beats] at hb
      omega
  · exact ⟨rfl, rfl, by decide, by decide, by decide, by decide, by decide⟩

/-- Claim C10, witness: applied at the fixture, the selected task (task 0)
indeed has no positive period. -/
theorem c10_witness :
    ¬ 0 < (tie_dag.tasks.getD 0 default).period :=
  c10_aperiodic_wins_tie.1 tie_dag 0 0 (by decide) (by decide) (by decide)
    (by decide) (by decide)

end HybridDag
